/-
  Verification of the behavioural claims documented by the
  damonallison/javascript study corpus.

  The repository is a collection of unit tests pinning down JavaScript
  language semantics, together with small teaching fixtures
  (`src/model/person.js`, `src/model/teacher.js`).  We shallowly embed the
  fixtures and the language behaviour the tests exercise:

  * JS values are an inductive `JSValue`; strings are lists of code points.
  * The case-mapping built-ins (`toLocaleLowerCase` / `toLocaleUpperCase`)
    are modelled as full (possibly expanding) per-code-point mappings on
    the fragment the development reasons over: ASCII, Latin-1, and the
    sharp-s pair ß / ẞ.
  * The impure `Date()` calls in the fixtures are made explicit: every
    operation that reads the clock takes the current date as an argument.
  * Fallible constructors return `Except JSError _`.
-/
import Mathlib

namespace JS

/-- A JS string, as a list of Unicode code points. -/
abbrev JSString := List Nat

/-- A string literal, as its list of code points. -/
def strLit (s : String) : JSString := s.toList.map Char.toNat

/-- The JS `number` type: a 64-bit float, modelled at the precision the
    tests exercise — `NaN`, the two infinities, and finite values
    (as rationals). -/
inductive JSNum where
  | nan
  | posInf
  | negInf
  | finite (q : ℚ)
  deriving Repr, DecidableEq

/-- The `Number::equal` abstract operation: `NaN` compares unequal to
    everything, including itself; other numbers compare by value.  Both
    `==` and `===` apply this operation when the two operands are
    numbers, so on numbers loose and strict equality coincide. -/
def JSNum.numEqual : JSNum → JSNum → Bool
  | .nan, _ => false
  | _, .nan => false
  | .posInf, .posInf => true
  | .negInf, .negInf => true
  | .finite q, .finite r => q == r
  | _, _ => false

/-- The global `isNaN` applied to a number (no coercion needed). -/
def JSNum.jsIsNaN : JSNum → Bool
  | .nan => true
  | _ => false

/-- The JS values the fixtures and tests distinguish with `typeof`. -/
inductive JSValue where
  | undef
  | null
  | boolean (b : Bool)
  | number (n : JSNum)
  | string (s : JSString)
  | object (id : Nat)
  deriving Repr, DecidableEq

/-- Strict equality `===` on `JSValue`: operands of different types are
    never strictly equal; same-type operands compare by value, numbers
    via `Number::equal` (so `NaN === NaN` is false). -/
def strictEq : JSValue → JSValue → Bool
  | .undef, .undef => true
  | .null, .null => true
  | .boolean a, .boolean b => a == b
  | .number a, .number b => a.numEqual b
  | .string a, .string b => a == b
  | .object i, .object j => i == j
  | _, _ => false

/-- Loose equality `==` restricted to two number operands: when both
    operands are numbers, `==` performs no coercion and applies the same
    `Number::equal` operation as `===`. -/
def looseEqNum (a b : JSNum) : Bool := a.numEqual b

/-- The `typeof` operator, restricted to the value shapes in `JSValue`.
    (`typeof null` is `"object"`, the well-known historical quirk.) -/
def typeofTag : JSValue → String
  | .undef => "undefined"
  | .null => "object"
  | .boolean _ => "boolean"
  | .number _ => "number"
  | .string _ => "string"
  | .object _ => "object"

/-- A thrown JS `Error`, identified by its constructor name and message. -/
structure JSError where
  name : String
  message : String
  deriving Repr, DecidableEq

/-- Lower-case mapping of one code point, which may expand to several
    code points.  Models the host built-in
    `String.prototype.toLocaleLowerCase` (default locale) on the
    fragment this development reasons over: ASCII `A`–`Z`, Latin-1
    `À`–`Þ` (excluding `×`), and capital sharp s `ẞ` (U+1E9E), which
    lower-cases to `ß` (U+00DF); other code points of the fragment are
    unchanged. -/
def lowerMap (n : Nat) : List Nat :=
  if 65 ≤ n ∧ n ≤ 90 then [n + 32]
  else if 192 ≤ n ∧ n ≤ 222 ∧ n ≠ 215 then [n + 32]
  else if n = 7838 then [223]
  else [n]

/-- Upper-case mapping of one code point, which may expand to several
    code points.  Models the host built-in
    `String.prototype.toLocaleUpperCase` (default locale) on the same
    fragment: ASCII `a`–`z`, Latin-1 `à`–`þ` (excluding `÷`), sharp s
    `ß` (U+00DF), which upper-cases to the two code points `"SS"`, and
    `ÿ` (U+00FF), which upper-cases to `Ÿ` (U+0178); other code points
    of the fragment — `ẞ` in particular — are unchanged. -/
def upperMap (n : Nat) : List Nat :=
  if 97 ≤ n ∧ n ≤ 122 then [n - 32]
  else if 224 ≤ n ∧ n ≤ 254 ∧ n ≠ 247 then [n - 32]
  else if n = 223 then [83, 83]
  else if n = 255 then [376]
  else [n]

/-- `s.toLocaleLowerCase()`: each code point maps to its full
    lower-case mapping. -/
def toLocaleLowerCase (s : JSString) : JSString := s.flatMap lowerMap

/-- `s.toLocaleUpperCase()`: each code point maps to its full
    upper-case mapping. -/
def toLocaleUpperCase (s : JSString) : JSString := s.flatMap upperMap

/-! ### Arrays

JS arrays may be sparse: assigning `a[i] = v` creates an own property at
index `i` and raises `length` to `i + 1` if needed; indices that were
never assigned are *holes*.  Reading a hole yields `undefined`, but
iteration over the array's own index properties (the order in which
integer-keyed properties are enumerated) visits only the assigned
indices, in ascending numeric order.  We represent the own index
properties as an association list kept sorted by index. -/

/-- Insert (or overwrite) index `i` in an index-sorted association list,
    keeping it sorted. -/
def insertIdx (i : Nat) (v : JSValue) : List (Nat × JSValue) → List (Nat × JSValue)
  | [] => [(i, v)]
  | (j, w) :: rest =>
    if i < j then (i, v) :: (j, w) :: rest
    else if i = j then (i, v) :: rest
    else (j, w) :: insertIdx i v rest

/-- A JS array: its `length` property and its own index properties. -/
structure JSArray where
  length : Nat
  entries : List (Nat × JSValue)
  deriving Repr, DecidableEq

/-- `let a = [];` -/
def JSArray.empty : JSArray := ⟨0, []⟩

/-- `a[i] = v`: create/overwrite the index property and grow `length`
    to `i + 1` when `i` is not below the current length. -/
def JSArray.setIdx (a : JSArray) (i : Nat) (v : JSValue) : JSArray :=
  ⟨max a.length (i + 1), insertIdx i v a.entries⟩

/-- `a[i]`: the assigned value, or `undefined` for a hole. -/
def JSArray.getIdx (a : JSArray) (i : Nat) : JSValue :=
  match a.entries.lookup i with
  | some v => v
  | none => JSValue.undef

/-- The indices iteration visits, in visiting order: exactly the
    assigned (own index property) indices, ascending. -/
def JSArray.visitedIndices (a : JSArray) : List Nat :=
  a.entries.map Prod.fst

/-- Build an array by a sequence of index assignments starting from `[]`
    — the shape of the `collections-sparse-arrays` test. -/
def JSArray.ofAssignments (l : List (Nat × JSValue)) : JSArray :=
  l.foldl (fun a iv => a.setIdx iv.1 iv.2) JSArray.empty

/-- The highest ordinal among a sequence of index assignments. -/
def maxIdx (l : List (Nat × JSValue)) : Nat :=
  l.foldl (fun m p => max m p.1) 0

/-- The assignments of the `collections-sparse-arrays` test:
    `a[0] = 0; a[1] = undefined; a[9] = 9;`. -/
def sparseExample : List (Nat × JSValue) :=
  [(0, .number (.finite 0)), (1, .undef), (9, .number (.finite 9))]

/-! ### `this` binding

`this` inside a function is determined by how the function is invoked.
A function value carries its body — which receives the resolved `this`
— and an optional hard-bound `this` installed by `.bind`.  The file
`3-environment/this.test.js` runs in strict mode, so plain function
invocation resolves `this` to `undefined`. -/

/-- The values `this` can take in the scenarios the tests exercise:
    `undefined`, or a specific object (by identity). -/
inductive ThisV where
  | undefThis
  | obj (id : Nat)
  deriving Repr, DecidableEq

/-- A function value: a body parameterised over the resolved `this`,
    plus the hard-bound `this` installed by `.bind`, if any. -/
structure JSFunc (α β : Type) where
  body : ThisV → α → β
  boundThis : Option ThisV

/-- The `this` the body actually sees: the hard-bound `this` when the
    function was produced by `.bind`, the incoming `this` otherwise. -/
def JSFunc.resolveThis (f : JSFunc α β) (incoming : ThisV) : ThisV :=
  f.boundThis.getD incoming

/-- Plain function invocation `f(a)` in strict mode: `this` resolves
    to `undefined`. -/
def JSFunc.invokeFn (f : JSFunc α β) (a : α) : β :=
  f.body (f.resolveThis .undefThis) a

/-- Method invocation `obj.f(a)`: `this` resolves to the receiver. -/
def JSFunc.invokeMethod (recv : Nat) (f : JSFunc α β) (a : α) : β :=
  f.body (f.resolveThis (.obj recv)) a

/-- Indirect invocation `f.call(t, a)` / `f.apply(t, [a])`: `this` is
    supplied explicitly. -/
def JSFunc.callWith (f : JSFunc α β) (t : ThisV) (a : α) : β :=
  f.body (f.resolveThis t) a

/-- `f.bind(t)`: a new function whose `this` is hard-bound; binding an
    already-bound function keeps the original bound `this`. -/
def JSFunc.bindTo (f : JSFunc α β) (t : ThisV) : JSFunc α β :=
  { f with boundThis := some (f.resolveThis t) }

/-- An object as constructor invocation produces it: the tag of the
    constructor that created it, and its named fields. -/
structure JSObject where
  cls : Nat
  fields : List (String × JSValue)
  deriving Repr, DecidableEq

/-- Constructor invocation `new F(args)`: a fresh object is created
    with `F`'s tag and no fields, it becomes `this` for the body (which
    may only populate fields), and it is returned. -/
def construct (cls : Nat) (init : List (String × JSValue) → List (String × JSValue)) :
    JSObject :=
  ⟨cls, init []⟩

/-- `o instanceof F`, for objects created by `construct`. -/
def JSObject.instanceOfCls (o : JSObject) (cls : Nat) : Bool :=
  o.cls == cls

/-- Read a named field of an object, `undefined` when absent. -/
def JSObject.getField (o : JSObject) (k : String) : JSValue :=
  match o.fields.lookup k with
  | some v => v
  | none => JSValue.undef

/-- The tag identifying the `Person` constructor function of
    `this-constructor-invocation` (`3-environment/this.test.js`). -/
def personTag : Nat := 0

/-- The field assignments performed on `this` by that `Person`
    constructor function:

    ```
    this.firstName = fName;
    this.lastName = lName;
    this.age = age;
    ```
-/
def personCtorInit (fName lName : JSString) (age : JSNum) :
    List (String × JSValue) → List (String × JSValue) :=
  fun fs => fs ++ [("firstName", .string fName), ("lastName", .string lName),
                   ("age", .number age)]

end JS

namespace Model

open JS

/-- The state of a `Person` instance (`src/model/person.js`).
    `lastUpdated` is absent (`undefined`) until `toString` first runs,
    hence the `Option`. -/
structure Person where
  name : JSString
  createdDate : JSString
  lastUpdated : Option JSString
  deriving Repr, DecidableEq

/-- `Person`'s constructor, from `src/model/person.js`:

    ```
    constructor(name) {
        if (typeof name === "undefined") { throw Error("name is required"); }
        if (typeof name !== "string") { throw Error("name must be a string"); }
        this.name = name;
        this.createdDate = Date();
    }
    ```

    `now` is the value `Date()` returns during the call. -/
def Person.construct (now : JSString) (name : JSValue) : Except JSError Person :=
  if typeofTag name = "undefined" then
    .error ⟨"Error", "name is required"⟩
  else if typeofTag name ≠ "string" then
    .error ⟨"Error", "name must be a string"⟩
  else
    match name with
    | .string s => .ok ⟨s, now, none⟩
    | _ => .error ⟨"Error", "name must be a string"⟩

/-- `get capitalizedName() { return this.name.toLocaleUpperCase(); }` -/
def Person.capitalizedNameGet (p : Person) : JSString :=
  toLocaleUpperCase p.name

/-- `set capitalizedName(value) { this.name = value.toLocaleLowerCase(); }` -/
def Person.capitalizedNameSet (p : Person) (value : JSString) : Person :=
  { p with name := toLocaleLowerCase value }

/-- `toString()` from `src/model/person.js`:

    ```
    toString() {
        this.lastUpdated = Date();
        return `${this.name} was created on ${this.createdDate}. Last updated ${this.lastUpdated}`;
    }
    ```

    `now` is the value `Date()` returns during the call; the result is the
    updated receiver together with the returned string. -/
def Person.jsToString (now : JSString) (p : Person) : Person × JSString :=
  let p' := { p with lastUpdated := some now }
  (p', p'.name ++ strLit " was created on " ++ p'.createdDate
        ++ strLit ". Last updated " ++ now)

/-- The state of a `Teacher` instance (`src/model/teacher.js`),
    a `Person` plus `subject` and `students`. -/
structure Teacher where
  toPerson : Person
  subject : JSValue
  students : List JSValue
  deriving Repr, DecidableEq

/-- `Teacher`'s constructor (`src/model/teacher.js`): it calls
    `super(name)` first — so it throws exactly when `Person`'s
    constructor does — then sets `subject` and `students`. -/
def Teacher.construct (now : JSString) (name : JSValue) (subject : JSValue)
    (students : List JSValue) : Except JSError Teacher :=
  match Person.construct now name with
  | .error e => .error e
  | .ok p => .ok ⟨p, subject, students⟩

end Model

namespace Generators

/-! ### Generators (`5-async/generators.test.js`)

A generator instance is a suspended computation: calling the generator
function allocates it without running any of its body; each `.next(v)`
resumes it — with `v` becoming the value of the suspended `yield`
expression — and runs it to its next `yield` (or to completion).  We
embed the two generators the claims cite as explicit state machines. -/

/-- The `simple-generator` test's shared state: the `activity` log and
    the outer variable `x`. -/
structure SimpleEnv where
  activity : List String
  x : Int
  deriving Repr, DecidableEq

/-- The suspension points of `gen` in the `simple-generator` test:
    freshly created (body not yet run), suspended at its single `yield`,
    or finished. -/
inductive SimpleGenState where
  | created
  | suspendedAtYield
  | finished
  deriving Repr, DecidableEq

/-- `gen()` — acquiring a generator instance runs none of its body. -/
def simpleGenCreate : SimpleGenState := .created

/-- One `.next()` on the `simple-generator` test's `gen`:

    ```
    function* gen() {
        activity.push("before yield");
        yield;
        activity.push("after yield");
        expect(x).toBe(100);
    };
    ```

    The Bool result is the `done` flag; the returned Bool `x == 100`
    records the body's assertion when it runs to completion. -/
def simpleGenNext : SimpleGenState → SimpleEnv → SimpleGenState × SimpleEnv × Bool
  | .created, env =>
      (.suspendedAtYield, { env with activity := env.activity ++ ["before yield"] }, false)
  | .suspendedAtYield, env =>
      (.finished, { env with activity := env.activity ++ ["after yield"] }, true)
  | .finished, env => (.finished, env, true)

/-- The `simple-generator` test body, step by step, returning the
    final `activity` log. -/
def simpleGeneratorTest : List String :=
  let env : SimpleEnv := ⟨[], 1⟩
  let env := { env with activity := env.activity ++ ["acquiring generator"] }
  let g := simpleGenCreate
  let env := { env with activity := env.activity ++ ["acquired generator"] }
  let r1 := simpleGenNext g env
  let env := { r1.2.1 with x := 100 }
  let env := { env with activity := env.activity ++ ["resuming generator"] }
  let r2 := simpleGenNext r1.1 env
  let env := { r2.2.1 with activity := r2.2.1.activity ++ ["done"] }
  env.activity

/-- Values flowing out of `addWhileLessThanX`'s `.next()`. -/
inductive GVal where
  | strVal (s : String)
  | numVal (n : Int)
  | undefVal
  deriving Repr, DecidableEq

/-- The suspension points of `addWhileLessThanX`:

    ```
    function *addWhileLessThanX(x) {
        let sum = 0;
        let val = yield "begin";
        while (val < x) {
            sum += val;
            val = yield;
        }
        return sum;
    }
    ```

    `start x`: created, body not yet run.  `loop x sum`: suspended at a
    `yield` inside (or entering) the `while`, waiting for `val`.
    `finished`: completed. -/
inductive AddGenState where
  | start (x : Int)
  | loop (x sum : Int)
  | finished
  deriving Repr, DecidableEq

/-- `addWhileLessThanX(x)` — creates the generator; the body has not
    run (`sum` is not even initialised yet). -/
def addWhileLessThanX (x : Int) : AddGenState := .start x

/-- One `.next(v)` on `addWhileLessThanX` (`v = none` models calling
    `.next()` with no argument, i.e. resuming with `undefined`; the
    comparison `undefined < x` is false since it evaluates via `NaN`).

    Result: new state, the `value` of the `.next()` result, and its
    `done` flag. -/
def addGenNext (s : AddGenState) (v : Option Int) : AddGenState × GVal × Bool :=
  match s with
  | .start x => (.loop x 0, .strVal "begin", false)
  | .loop x sum =>
      match v with
      | some i =>
          if i < x then (.loop x (sum + i), .undefVal, false)
          else (.finished, .numVal sum, true)
      | none => (.finished, .numVal sum, true)
  | .finished => (.finished, .undefVal, true)

/-- Drive a generator with successive integers `i, i+1, i+2, ...` (the
    test's `for` loop), returning the `value` the generator completes
    with and the integer that was being fed when it completed. -/
def driveFrom (fuel : Nat) (s : AddGenState) (i : Int) : Option (GVal × Int) :=
  match fuel with
  | 0 => none
  | fuel + 1 =>
      let r := addGenNext s (some i)
      if r.2.2 then some (r.2.1, i) else driveFrom fuel r.1 (i + 1)

end Generators

namespace Chaining

/-! ### Promise handler ordering (`5-async/promises.test.js`, `promises-chaining`)

When a promise settles, the reactions attached to it with `.then` are
enqueued on the microtask queue in the order they were attached; the
queue is FIFO; and when a reaction finishes, the reactions chained on
the promise that `.then` returned are enqueued at the tail.  A reaction
is modelled as the number it pushes onto the test's `listenerOrder`
array (if any) together with the reactions chained on its `.then`
result. -/

/-- A promise reaction: the value its handler pushes onto the observed
    order list (`none` for a handler that records nothing), and the
    reactions attached to the promise this `.then` returned. -/
inductive Job where
  | mk (label : Option Nat) (chained : List Job)

/-- The label a job pushes, if any. -/
def Job.label : Job → Option Nat
  | .mk l _ => l

/-- The reactions chained on the job's `.then` result. -/
def Job.chained : Job → List Job
  | .mk _ cs => cs

mutual

/-- Total number of reactions in a job's chain tree. -/
def Job.size : Job → Nat
  | .mk _ cs => 1 + queueSize cs

/-- Total number of reactions in a queue. -/
def queueSize : List Job → Nat
  | [] => 0
  | j :: rest => Job.size j + queueSize rest

end

/-- Run the microtask queue to completion: pop the head reaction, record
    its push, enqueue its chained reactions at the tail, repeat.  The
    result is the sequence of recorded pushes, in execution order. -/
def runQueue : List Job → List Nat
  | [] => []
  | .mk l cs :: rest =>
      match l with
      | some n => n :: runQueue (rest ++ cs)
      | none => runQueue (rest ++ cs)
termination_by q => queueSize q
decreasing_by
  all_goals
    have h : ∀ (as bs : List Job), queueSize (as ++ bs) = queueSize as + queueSize bs := by
      intro as bs
      induction as with
      | nil => simp [queueSize]
      | cons j js ih =>
          show Job.size j + queueSize (js ++ bs) = queueSize (j :: js) + queueSize bs
          rw [ih]
          simp only [queueSize]
          omega
    simp only [queueSize, Job.size, h]
    omega

/-- The reactions attached to the `promises-chaining` test's promise, in
    attachment order: the chain
    `promise.then(push 1).then(push 3).then(check)` and the later
    top-level `promise.then(push 2)`. -/
def chainingJobs : List Job :=
  [Job.mk (some 1) [Job.mk (some 3) [Job.mk none []]],
   Job.mk (some 2) []]

/-- The complete observed `listenerOrder` of the test: the executor body
    runs synchronously during `new Promise(...)` and pushes `0`; the
    handlers run from the microtask queue after the promise resolves. -/
def chainingTrace : List Nat := 0 :: runQueue chainingJobs

end Chaining

namespace Rejection

open JS

/-! ### Promise rejection propagation (`5-async/promises.test.js`)

A settled promise is either fulfilled with a value or rejected with an
error.  Each `.then(onFulfilled)` step runs its handler only on a
fulfilled settlement — a thrown error rejects the derived promise — and
passes a rejection through untouched (the implicit `onRejected`
rethrows).  `.catch(h)` hands the rejection's error to `h`. -/

/-- The settlement of a promise. -/
inductive Settlement where
  | fulfilled (v : JSValue)
  | rejected (e : JSError)
  deriving Repr, DecidableEq

/-- A fulfillment handler, as the tests use them: it either returns a
    value or its body throws. -/
inductive Handler where
  | returns (v : JSValue)
  | throws (e : JSError)
  deriving Repr, DecidableEq

/-- Running a handler's body: the value it returns, or the error it
    throws. -/
def runHandler : Handler → Except JSError JSValue
  | .returns v => .ok v
  | .throws e => .error e

/-- One `.then(h)` step on a settlement. -/
def thenStep (s : Settlement) (h : Handler) : Settlement :=
  match s with
  | .fulfilled _ =>
      match runHandler h with
      | .ok w => .fulfilled w
      | .error e => .rejected e
  | .rejected e => .rejected e

/-- Run a `.then` chain, recording (in order) the handlers whose bodies
    actually executed; handlers reached in a rejected state are skipped. -/
def runChain (s : Settlement) : List Handler → Settlement × List Handler
  | [] => (s, [])
  | h :: rest =>
      match s with
      | .fulfilled v =>
          let r := runChain (thenStep (.fulfilled v) h) rest
          (r.1, h :: r.2)
      | .rejected e => (.rejected e, [])

/-- The error a trailing `.catch` receives, if any. -/
def catchResult : Settlement → Option JSError
  | .rejected e => some e
  | .fulfilled _ => none

end Rejection

/-! ## Theorems -/

open JS Model

/-! ### Helper lemmas -/

/-- On ASCII code points, the lower-case mapping is the simple one. -/
theorem lowerMap_ascii (n : Nat) (h : n < 128) :
    lowerMap n = if 65 ≤ n ∧ n ≤ 90 then [n + 32] else [n] := by
  unfold lowerMap
  by_cases c1 : 65 ≤ n ∧ n ≤ 90
  · simp [c1]
  · have c2 : ¬(192 ≤ n ∧ n ≤ 222 ∧ n ≠ 215) := by omega
    have c3 : n ≠ 7838 := by omega
    simp [c1, c2, c3]

/-- On ASCII code points, the upper-case mapping is the simple one. -/
theorem upperMap_ascii (n : Nat) (h : n < 128) :
    upperMap n = if 97 ≤ n ∧ n ≤ 122 then [n - 32] else [n] := by
  unfold upperMap
  by_cases c1 : 97 ≤ n ∧ n ≤ 122
  · simp [c1]
  · have c2 : ¬(224 ≤ n ∧ n ≤ 254 ∧ n ≠ 247) := by omega
    have c3 : n ≠ 223 := by omega
    have c4 : n ≠ 255 := by omega
    simp [c1, c2, c3, c4]

/-- An ASCII string fixed by upper-casing round-trips through
    lower-casing followed by upper-casing. -/
theorem ascii_upper_lower_fixed (s : List Nat) (hA : ∀ n ∈ s, n < 128)
    (hfix : toLocaleUpperCase s = s) :
    toLocaleUpperCase (toLocaleLowerCase s) = s := by
  induction s with
  | nil => rfl
  | cons a t ih =>
      have ha : a < 128 := hA a (List.mem_cons_self a t)
      have hA2 : ∀ n ∈ t, n < 128 := fun n hn => hA n (List.mem_cons_of_mem a hn)
      have hfix2 : upperMap a ++ toLocaleUpperCase t = a :: t := hfix
      rw [upperMap_ascii a ha] at hfix2
      by_cases c : 97 ≤ a ∧ a ≤ 122
      · rw [if_pos c] at hfix2
        simp only [List.cons_append, List.nil_append, List.cons.injEq] at hfix2
        exact absurd hfix2.1 (by omega)
      · rw [if_neg c] at hfix2
        simp only [List.cons_append, List.nil_append, List.cons.injEq] at hfix2
        have htail : toLocaleUpperCase (toLocaleLowerCase t) = t := ih hA2 hfix2.2
        show ((a :: t).flatMap lowerMap).flatMap upperMap = a :: t
        rw [List.flatMap_cons, List.flatMap_append]
        have hhead : (lowerMap a).flatMap upperMap = [a] := by
          rw [lowerMap_ascii a ha]
          by_cases c65 : 65 ≤ a ∧ a ≤ 90
          · rw [if_pos c65]
            have h32 : a + 32 < 128 := by omega
            simp only [List.flatMap_cons, List.flatMap_nil, List.append_nil]
            rw [upperMap_ascii (a + 32) h32, if_pos (by omega : 97 ≤ a + 32 ∧ a + 32 ≤ 122)]
            congr 1
          · rw [if_neg c65]
            simp only [List.flatMap_cons, List.flatMap_nil, List.append_nil]
            rw [upperMap_ascii a ha, if_neg c]
        rw [hhead, show (t.flatMap lowerMap).flatMap upperMap = t from htail]
        rfl

/-! ### C1 — fixture constructors and preconditions -/

/-- C1 (counterexample): it is not the case that `new Person(v)` never
    raises an error — at `v = undefined` it throws `Error("name is
    required")` (and so does `new Teacher(undefined, ...)`, via
    `super(name)`), and at the number `42` it throws `Error("name must
    be a string")`. -/
theorem person_constructor_throws :
    Person.construct [] JSValue.undef = .error ⟨"Error", "name is required"⟩ ∧
    Teacher.construct [] JSValue.undef JSValue.undef []
      = .error ⟨"Error", "name is required"⟩ ∧
    Person.construct [] (JSValue.number (.finite 42))
      = .error ⟨"Error", "name must be a string"⟩ :=
  ⟨rfl, rfl, rfl⟩

/-- C1 (amended): `Person`'s constructor does impose a precondition on
    its argument — it throws `Error("name is required")` when the
    argument is `undefined` and `Error("name must be a string")` when it
    is any other non-string, succeeds exactly on strings, and `Teacher`'s
    constructor inherits the same precondition through `super(name)`. -/
theorem person_constructor_requires_string (now : JSString) (v : JSValue)
    (subject : JSValue) (students : List JSValue) :
    ((Person.construct now v).isOk ↔ typeofTag v = "string") ∧
    (v = JSValue.undef →
      Person.construct now v = .error ⟨"Error", "name is required"⟩) ∧
    (typeofTag v ≠ "undefined" → typeofTag v ≠ "string" →
      Person.construct now v = .error ⟨"Error", "name must be a string"⟩) ∧
    (∀ s, Person.construct now (JSValue.string s) = .ok ⟨s, now, none⟩) ∧
    ((Teacher.construct now v subject students).isOk ↔ typeofTag v = "string") := by
  refine ⟨?_, ?_, ?_, fun s => rfl, ?_⟩
  · cases v <;> simp [Person.construct, typeofTag, Except.isOk, Except.toBool]
  · rintro rfl; rfl
  · intro h1 h2
    cases v <;> simp [typeofTag] at h1 h2 ⊢ <;>
      simp [Person.construct, typeofTag]
  · cases v <;>
      simp [Teacher.construct, Person.construct, typeofTag, Except.isOk, Except.toBool]

/-- C1 (witness for the amended claim at concrete inputs). -/
theorem person_constructor_requires_string_witness :
    Person.construct [] JSValue.undef = .error ⟨"Error", "name is required"⟩ ∧
    Person.construct [] JSValue.null = .error ⟨"Error", "name must be a string"⟩ ∧
    Person.construct [] (JSValue.string (strLit "damon"))
      = .ok ⟨strLit "damon", [], none⟩ :=
  ⟨(person_constructor_requires_string [] JSValue.undef JSValue.undef []).2.1 rfl,
   (person_constructor_requires_string [] JSValue.null JSValue.undef []).2.2.1
      (by decide) (by decide),
   (person_constructor_requires_string [] JSValue.undef JSValue.undef []).2.2.2.1
      (strLit "damon")⟩

/-! ### C2 — `NaN` is not equal to itself -/

/-- C2: `NaN == NaN` and `NaN === NaN` evaluate to false (and so does
    `x === NaN` for `x` bound to `NaN`), while `isNaN(NaN)` is true. -/
theorem nan_not_equal_to_itself :
    looseEqNum JSNum.nan JSNum.nan = false ∧
    strictEq (JSValue.number JSNum.nan) (JSValue.number JSNum.nan) = false ∧
    (let x : JSValue := JSValue.number JSNum.nan
     strictEq x (JSValue.number JSNum.nan) = false) ∧
    JSNum.jsIsNaN JSNum.nan = true := by
  decide

/-! ### C9 — `capitalizedName` round trip -/

/-- C9 (counterexample): get-after-set does not return every fully
    upper-case string: at s = `"ẞ"` (the single code point U+1E9E),
    `s.toLocaleUpperCase()` is `s` itself, yet after
    `p.capitalizedName = s` the stored name is `"ß"` (U+00DF) and
    reading `p.capitalizedName` gives `"SS"` (83, 83), not `s`. -/
theorem capitalizedName_not_involutive_on_sharp_s :
    toLocaleUpperCase [7838] = [7838] ∧
    ((Person.mk (strLit "x") (strLit "today") none).capitalizedNameSet
        [7838]).name = [223] ∧
    ((Person.mk (strLit "x") (strLit "today") none).capitalizedNameSet
        [7838]).capitalizedNameGet = [83, 83] ∧
    ([83, 83] : List Nat) ≠ [7838] := by
  refine ⟨rfl, rfl, rfl, by decide⟩

/-- C9 (amended): after `p.capitalizedName = s`, `p.name` is
    `s.toLocaleLowerCase()` and reading `p.capitalizedName` gives
    `s.toLocaleLowerCase().toLocaleUpperCase()`; get-after-set returns
    `s` itself when `s` is a fully upper-case ASCII string — but not
    for every fully upper-case string (not at `"ẞ"`). -/
theorem capitalizedName_round_trip_ascii (p : Person) (s : JSString) :
    (p.capitalizedNameSet s).name = toLocaleLowerCase s ∧
    (p.capitalizedNameSet s).capitalizedNameGet
      = toLocaleUpperCase (toLocaleLowerCase s) ∧
    ((∀ n ∈ s, n < 128) → toLocaleUpperCase s = s →
      (p.capitalizedNameSet s).capitalizedNameGet = s) := by
  refine ⟨rfl, rfl, fun hA hfix => ?_⟩
  show toLocaleUpperCase (toLocaleLowerCase s) = s
  exact ascii_upper_lower_fixed s hA hfix

/-- C9 (witness): the round trip at a concrete person and the concrete
    fully-upper-case ASCII string `"DAMON"`. -/
theorem capitalizedName_round_trip_ascii_witness :
    ((Person.mk (strLit "x") (strLit "today") none).capitalizedNameSet
        (strLit "DAMON")).capitalizedNameGet = strLit "DAMON" :=
  (capitalizedName_round_trip_ascii ⟨strLit "x", strLit "today", none⟩
      (strLit "DAMON")).2.2 (by decide) (by decide)

/-! ### C10 — `toString` is not a pure observer -/

/-- C10: every call to `p.toString()` assigns the current date to
    `p.lastUpdated`, leaves `name` and `createdDate` unchanged, and
    returns a string mentioning `p.name`, `p.createdDate`, and the new
    `p.lastUpdated`. -/
theorem toString_updates_lastUpdated (p : Person) (now : JSString) :
    (Person.jsToString now p).1.lastUpdated = some now ∧
    (Person.jsToString now p).1.name = p.name ∧
    (Person.jsToString now p).1.createdDate = p.createdDate ∧
    (Person.jsToString now p).2
      = p.name ++ strLit " was created on " ++ p.createdDate
          ++ strLit ". Last updated " ++ now ∧
    p.name <+: (Person.jsToString now p).2 ∧
    p.createdDate <:+: (Person.jsToString now p).2 ∧
    now <:+ (Person.jsToString now p).2 := by
  refine ⟨rfl, rfl, rfl, rfl, ?_, ?_, ?_⟩
  · exact ⟨strLit " was created on " ++ p.createdDate ++ strLit ". Last updated " ++ now,
      by simp [Person.jsToString]⟩
  · exact ⟨p.name ++ strLit " was created on ",
      strLit ". Last updated " ++ now, by simp [Person.jsToString]⟩
  · exact ⟨p.name ++ strLit " was created on " ++ p.createdDate ++ strLit ". Last updated ",
      by simp [Person.jsToString]⟩


/-! ### C4 — `this` across the four invocation styles -/

/-- C4: `this` is determined by the invocation style: (1) plain function
    invocation in strict mode sees `this = undefined`, even for a
    function nested inside a method body whose own `this` is the
    receiver; (2) method invocation `obj.f()` sees `this = obj`;
    (3) constructor invocation `new F(...)` runs the body on a fresh
    object which is returned and is an `instanceof F` — concretely, the
    test's `new Person("damon", "allison", 41)`; (4) `f.call(obj)`,
    `f.apply(obj)` and `f.bind(obj)` set `this = obj`, and a bound
    function's `this` is not rebound by a later `.call`. -/
theorem this_binding_four_styles :
    (∀ (α β : Type) (g : ThisV → α → β) (a : α),
        (JSFunc.mk g none).invokeFn a = g ThisV.undefThis a) ∧
    (∀ recv : Nat,
        JSFunc.invokeMethod recv
          (JSFunc.mk
            (fun t _ => (t, (JSFunc.mk (fun inner _ => inner) none).invokeFn ()))
            none) ()
          = (ThisV.obj recv, ThisV.undefThis)) ∧
    (∀ (α β : Type) (g : ThisV → α → β) (recv : Nat) (a : α),
        JSFunc.invokeMethod recv (JSFunc.mk g none) a = g (ThisV.obj recv) a) ∧
    (∀ (cls : Nat) (init : List (String × JSValue) → List (String × JSValue)),
        (construct cls init).instanceOfCls cls = true ∧
        (construct cls init).fields = init []) ∧
    ((construct personTag
        (personCtorInit (strLit "damon") (strLit "allison")
          (JSNum.finite 41))).getField "firstName"
        = JSValue.string (strLit "damon") ∧
     (construct personTag
        (personCtorInit (strLit "damon") (strLit "allison")
          (JSNum.finite 41))).getField "lastName"
        = JSValue.string (strLit "allison") ∧
     (construct personTag
        (personCtorInit (strLit "damon") (strLit "allison")
          (JSNum.finite 41))).getField "age"
        = JSValue.number (JSNum.finite 41)) ∧
    (∀ (α β : Type) (g : ThisV → α → β) (t : ThisV) (a : α),
        (JSFunc.mk g none).callWith t a = g t a) ∧
    (∀ (α β : Type) (g : ThisV → α → β) (t : ThisV) (a : α),
        ((JSFunc.mk g none).bindTo t).invokeFn a = g t a) ∧
    (∀ (α β : Type) (g : ThisV → α → β) (t t' : ThisV) (a : α),
        ((JSFunc.mk g none).bindTo t).callWith t' a = g t a) := by
  refine ⟨fun α β g a => rfl, fun recv => rfl, fun α β g recv a => rfl,
    fun cls init => ⟨?_, rfl⟩, ⟨?_, ?_, ?_⟩,
    fun α β g t a => rfl, fun α β g t a => rfl, fun α β g t t' a => rfl⟩
  · simp [construct, JSObject.instanceOfCls]
  · decide
  · decide
  · decide

/-! ### C5 — generator suspend/resume with two-way value passing -/

open Generators in
/-- C5: a generator's body does not run until the first `.next()` (the
    `simple-generator` activity log shows `"acquired generator"` before
    `"before yield"`, and `addWhileLessThanX x` is created still at its
    start state); the first `.next()` runs to the first `yield`,
    producing `"begin"`; a value passed to `.next(v)` becomes the value
    of the suspended `yield` (resuming the loop when `v < x`, completing
    with the sum when not); and `addWhileLessThanX(5)` driven with
    `0, 1, 2, ...` completes with value `10 = 0 + 1 + 2 + 3 + 4` exactly
    when first resumed with `5`, the first value not less than `5`. -/
theorem generator_suspend_resume :
    simpleGeneratorTest
      = ["acquiring generator", "acquired generator", "before yield",
         "resuming generator", "after yield", "done"] ∧
    (∀ x : Int, addWhileLessThanX x = AddGenState.start x) ∧
    (∀ (x : Int) (v : Option Int),
        addGenNext (addWhileLessThanX x) v
          = (AddGenState.loop x 0, GVal.strVal "begin", false)) ∧
    (∀ x sum i : Int, i < x →
        addGenNext (AddGenState.loop x sum) (some i)
          = (AddGenState.loop x (sum + i), GVal.undefVal, false)) ∧
    (∀ x sum i : Int, ¬ i < x →
        addGenNext (AddGenState.loop x sum) (some i)
          = (AddGenState.finished, GVal.numVal sum, true)) ∧
    driveFrom 101 (addGenNext (addWhileLessThanX 5) none).1 0
      = some (GVal.numVal 10, 5) := by
  refine ⟨by decide, fun x => rfl, fun x v => rfl, ?_, ?_, by decide⟩
  · intro x sum i h
    simp [addGenNext, h]
  · intro x sum i h
    simp [addGenNext, h]

open Generators in
/-- C5 (witness): the suspended-`yield` resumption rules at concrete
    states — resuming `loop 5 6` with `3` continues the loop with sum
    `9`; resuming it with `7` completes with value `6`. -/
theorem generator_suspend_resume_witness :
    addGenNext (AddGenState.loop 5 6) (some 3)
      = (AddGenState.loop 5 9, GVal.undefVal, false) ∧
    addGenNext (AddGenState.loop 5 6) (some 7)
      = (AddGenState.finished, GVal.numVal 6, true) :=
  ⟨generator_suspend_resume.2.2.2.1 5 6 3 (by decide),
   generator_suspend_resume.2.2.2.2.1 5 6 7 (by decide)⟩

/-! ### C6 — promise handler ordering -/

/-- FIFO processing of the microtask queue: the head batch of reactions
    runs first, in order, each appending its chained reactions at the
    tail of the queue. -/
theorem runQueue_append (js k : List Chaining.Job) :
    Chaining.runQueue (js ++ k)
      = js.filterMap Chaining.Job.label
          ++ Chaining.runQueue (k ++ js.flatMap Chaining.Job.chained) := by
  induction js generalizing k with
  | nil => simp
  | cons j js ih =>
      obtain ⟨l, cs⟩ := j
      cases l with
      | some n =>
          simp only [List.cons_append, Chaining.runQueue, List.filterMap_cons,
            Chaining.Job.label, Chaining.Job.chained, List.flatMap_cons]
          rw [List.append_assoc, ih (k ++ cs), List.append_assoc]
      | none =>
          simp only [List.cons_append, Chaining.runQueue, List.filterMap_cons,
            Chaining.Job.label, Chaining.Job.chained, List.flatMap_cons]
          rw [List.append_assoc, ih (k ++ cs), List.append_assoc]

open Chaining in
/-- C6: when a promise settles, the reactions attached directly to it
    run first and in attachment order, before any reaction chained onto
    one of them (which are enqueued behind the queue's remainder) — so a
    handler chained on an earlier `.then` runs after a later-attached
    top-level handler; in the `promises-chaining` test the executor's
    push of `0` happens synchronously first and the observed order is
    exactly `[0, 1, 2, 3]`. -/
theorem promise_handler_ordering :
    (∀ js : List Job,
        runQueue js
          = js.filterMap Job.label ++ runQueue (js.flatMap Job.chained)) ∧
    chainingTrace = [0, 1, 2, 3] := by
  constructor
  · intro js
    have h := runQueue_append js []
    simpa using h
  · show 0 :: runQueue chainingJobs = [0, 1, 2, 3]
    simp [chainingJobs, Chaining.runQueue]

/-! ### C7 — promise rejection propagates like an exception -/

open Rejection in
/-- C7: a handler that throws rejects the chain — every subsequent
    `.then` fulfillment handler is skipped (no further handler body
    executes) and the thrown error reaches the chain's `.catch`; a
    promise rejected with an `Error` likewise skips all fulfillment
    handlers and delivers exactly that error to `.catch`.  Concretely:
    the `error-handling-within-then` chain, whose first handler throws a
    `ReferenceError`, and the `promises-resolution-and-rejection`
    promise `p2`, rejected with `Error("err")`. -/
theorem rejection_propagation :
    (∀ (v : JSValue) (e : JSError) (rest : List Handler),
        runChain (Settlement.fulfilled v) (Handler.throws e :: rest)
          = (Settlement.rejected e, [Handler.throws e]) ∧
        catchResult (runChain (Settlement.fulfilled v)
            (Handler.throws e :: rest)).1 = some e) ∧
    (∀ (e : JSError) (hs : List Handler),
        runChain (Settlement.rejected e) hs = (Settlement.rejected e, []) ∧
        catchResult (runChain (Settlement.rejected e) hs).1 = some e) ∧
    (runChain (Settlement.fulfilled (JSValue.string (strLit "done")))
        [Handler.throws ⟨"ReferenceError", "z is not defined"⟩,
         Handler.returns JSValue.undef]
      = (Settlement.rejected ⟨"ReferenceError", "z is not defined"⟩,
         [Handler.throws ⟨"ReferenceError", "z is not defined"⟩])) ∧
    catchResult (runChain (Settlement.rejected ⟨"Error", "err"⟩)
        [Handler.returns JSValue.undef]).1 = some ⟨"Error", "err"⟩ := by
  have hrej : ∀ (e : JSError) (hs : List Handler),
      runChain (Settlement.rejected e) hs = (Settlement.rejected e, []) := by
    intro e hs
    cases hs with
    | nil => rfl
    | cons h rest => rfl
  refine ⟨?_, ?_, by decide, by decide⟩
  · intro v e rest
    constructor
    · show (let r := runChain (thenStep (Settlement.fulfilled v)
          (Handler.throws e)) rest
        ((r.1, Handler.throws e :: r.2) : Settlement × List Handler))
          = (Settlement.rejected e, [Handler.throws e])
      rw [show thenStep (Settlement.fulfilled v) (Handler.throws e)
            = Settlement.rejected e from rfl, hrej]
    · show catchResult (let r := runChain (thenStep (Settlement.fulfilled v)
          (Handler.throws e)) rest
        ((r.1, Handler.throws e :: r.2) : Settlement × List Handler)).1 = some e
      rw [show thenStep (Settlement.fulfilled v) (Handler.throws e)
            = Settlement.rejected e from rfl, hrej]
      rfl
  · intro e hs
    refine ⟨hrej e hs, ?_⟩
    rw [hrej e hs]
    rfl

/-! ### C3 — sparse-array iteration skips holes -/

/-- Association-list lookup steps through one entry. -/
theorem lookup_cons_eq (j i : Nat) (v : JSValue) (t : List (Nat × JSValue)) :
    List.lookup j ((i, v) :: t) = if j = i then some v else List.lookup j t := by
  simp only [List.lookup]
  by_cases h : j = i
  · simp [h]
  · simp [h, beq_eq_false_iff_ne.mpr h]

/-- `insertIdx` behaves as a map update under `lookup`. -/
theorem lookup_insertIdx (i : Nat) (v : JSValue) (e : List (Nat × JSValue)) (j : Nat) :
    (insertIdx i v e).lookup j = if j = i then some v else e.lookup j := by
  induction e with
  | nil => simp [insertIdx, lookup_cons_eq]
  | cons p rest ih =>
      obtain ⟨k, w⟩ := p
      by_cases h1 : i < k
      · rw [show insertIdx i v ((k, w) :: rest) = (i, v) :: (k, w) :: rest from by
          simp [insertIdx, h1]]
        rw [lookup_cons_eq]
      · by_cases h2 : i = k
        · subst h2
          rw [show insertIdx i v ((i, w) :: rest) = (i, v) :: rest from by
            simp [insertIdx, h1]]
          rw [lookup_cons_eq, lookup_cons_eq]
          by_cases hj : j = i <;> simp [hj]
        · rw [show insertIdx i v ((k, w) :: rest) = (k, w) :: insertIdx i v rest from by
            simp [insertIdx, h1, h2]]
          rw [lookup_cons_eq, lookup_cons_eq, ih]
          by_cases hjk : j = k
          · subst hjk
            rw [if_pos rfl, if_neg (fun hh : j = i => h2 hh.symm), if_pos rfl]
          · simp [hjk]

/-- The assigned indices after `insertIdx` are the old ones plus `i`. -/
theorem mem_keys_insertIdx (i : Nat) (v : JSValue) (e : List (Nat × JSValue)) (j : Nat) :
    j ∈ (insertIdx i v e).map Prod.fst ↔ j = i ∨ j ∈ e.map Prod.fst := by
  induction e with
  | nil => simp [insertIdx]
  | cons p rest ih =>
      obtain ⟨k, w⟩ := p
      by_cases h1 : i < k
      · rw [show insertIdx i v ((k, w) :: rest) = (i, v) :: (k, w) :: rest from by
          simp [insertIdx, h1]]
        simp only [List.map_cons, List.mem_cons]
      · by_cases h2 : i = k
        · subst h2
          rw [show insertIdx i v ((i, w) :: rest) = (i, v) :: rest from by
            simp [insertIdx, h1]]
          simp only [List.map_cons, List.mem_cons]
          tauto
        · rw [show insertIdx i v ((k, w) :: rest) = (k, w) :: insertIdx i v rest from by
            simp [insertIdx, h1, h2]]
          simp only [List.map_cons, List.mem_cons, ih]
          tauto

/-- `insertIdx` keeps the assigned indices strictly ascending. -/
theorem pairwise_keys_insertIdx (i : Nat) (v : JSValue) (e : List (Nat × JSValue))
    (h : List.Pairwise (· < ·) (e.map Prod.fst)) :
    List.Pairwise (· < ·) ((insertIdx i v e).map Prod.fst) := by
  induction e with
  | nil => simp [insertIdx]
  | cons p rest ih =>
      obtain ⟨k, w⟩ := p
      simp only [List.map_cons, List.pairwise_cons] at h
      by_cases h1 : i < k
      · rw [show insertIdx i v ((k, w) :: rest) = (i, v) :: (k, w) :: rest from by
          simp [insertIdx, h1]]
        simp only [List.map_cons, List.pairwise_cons]
        refine ⟨?_, h.1, h.2⟩
        intro y hy
        simp only [List.mem_cons] at hy
        rcases hy with rfl | hy
        · exact h1
        · exact lt_trans h1 (h.1 y hy)
      · by_cases h2 : i = k
        · subst h2
          rw [show insertIdx i v ((i, w) :: rest) = (i, v) :: rest from by
            simp [insertIdx, h1]]
          simp only [List.map_cons, List.pairwise_cons]
          exact h
        · rw [show insertIdx i v ((k, w) :: rest) = (k, w) :: insertIdx i v rest from by
            simp [insertIdx, h1, h2]]
          simp only [List.map_cons, List.pairwise_cons]
          refine ⟨?_, ih h.2⟩
          intro y hy
          rw [mem_keys_insertIdx] at hy
          rcases hy with rfl | hy
          · omega
          · exact h.1 y hy

/-- Entries of the array built by a fold of assignments are the fold of
    `insertIdx` over the entries. -/
theorem ofAssignments_entries_aux (l : List (Nat × JSValue)) (arr : JSArray) :
    (l.foldl (fun a iv => a.setIdx iv.1 iv.2) arr).entries
      = l.foldl (fun e iv => insertIdx iv.1 iv.2 e) arr.entries := by
  induction l generalizing arr with
  | nil => rfl
  | cons p rest ih =>
      calc (List.foldl (fun a iv => a.setIdx iv.1 iv.2) arr (p :: rest)).entries
          = (List.foldl (fun a iv => a.setIdx iv.1 iv.2) (arr.setIdx p.1 p.2) rest).entries :=
            rfl
        _ = List.foldl (fun e iv => insertIdx iv.1 iv.2 e)
              (arr.setIdx p.1 p.2).entries rest := ih _
        _ = List.foldl (fun e iv => insertIdx iv.1 iv.2 e)
              (insertIdx p.1 p.2 arr.entries) rest := rfl

/-- Length of the array built by a fold of assignments. -/
theorem ofAssignments_length_aux (l : List (Nat × JSValue)) (arr : JSArray) :
    (l.foldl (fun a iv => a.setIdx iv.1 iv.2) arr).length
      = l.foldl (fun m p => max m (p.1 + 1)) arr.length := by
  induction l generalizing arr with
  | nil => rfl
  | cons p rest ih =>
      calc (List.foldl (fun a iv => a.setIdx iv.1 iv.2) arr (p :: rest)).length
          = (List.foldl (fun a iv => a.setIdx iv.1 iv.2) (arr.setIdx p.1 p.2) rest).length :=
            rfl
        _ = List.foldl (fun m q => max m (q.1 + 1)) (arr.setIdx p.1 p.2).length rest := ih _
        _ = List.foldl (fun m q => max m (q.1 + 1)) (max arr.length (p.1 + 1)) rest := rfl

/-- Folding `max` over successors shifts by one. -/
theorem foldl_max_succ (l : List (Nat × JSValue)) (a : Nat) :
    l.foldl (fun m p => max m (p.1 + 1)) (a + 1)
      = l.foldl (fun m p => max m p.1) a + 1 := by
  induction l generalizing a with
  | nil => rfl
  | cons p rest ih =>
      simp only [List.foldl_cons, Nat.succ_max_succ]
      exact ih (max a p.1)

/-- Unassigned indices stay unassigned across the fold. -/
theorem lookup_fold_not_mem (l : List (Nat × JSValue)) (e₀ : List (Nat × JSValue))
    (j : Nat) (hj : j ∉ l.map Prod.fst) :
    (l.foldl (fun e iv => insertIdx iv.1 iv.2 e) e₀).lookup j = e₀.lookup j := by
  induction l generalizing e₀ with
  | nil => rfl
  | cons p rest ih =>
      simp only [List.map_cons, List.mem_cons, not_or] at hj
      simp only [List.foldl_cons, ih _ hj.2, lookup_insertIdx, if_neg hj.1]

/-- Assigned indices across the fold are the initial ones plus the
    assigned ones. -/
theorem mem_keys_fold (l : List (Nat × JSValue)) (e₀ : List (Nat × JSValue)) (j : Nat) :
    j ∈ ((l.foldl (fun e iv => insertIdx iv.1 iv.2 e) e₀).map Prod.fst)
      ↔ j ∈ e₀.map Prod.fst ∨ j ∈ l.map Prod.fst := by
  induction l generalizing e₀ with
  | nil => simp
  | cons p rest ih =>
      simp only [List.foldl_cons, ih, mem_keys_insertIdx, List.map_cons, List.mem_cons]
      tauto

/-- Ascending order of assigned indices is preserved across the fold. -/
theorem pairwise_keys_fold (l : List (Nat × JSValue)) (e₀ : List (Nat × JSValue))
    (h : List.Pairwise (· < ·) (e₀.map Prod.fst)) :
    List.Pairwise (· < ·)
      ((l.foldl (fun e iv => insertIdx iv.1 iv.2 e) e₀).map Prod.fst) := by
  induction l generalizing e₀ with
  | nil => exact h
  | cons p rest ih =>
      simp only [List.foldl_cons]
      exact ih _ (pairwise_keys_insertIdx p.1 p.2 e₀ h)

/-- C3: for an array built by explicitly assigning only some indices
    (as in `a[0] = 0; a[1] = undefined; a[9] = 9`), the `length` is the
    highest assigned ordinal plus one, reading any unassigned index
    yields `undefined`, and iteration visits exactly the explicitly
    assigned indices — in ascending order — skipping the holes. -/
theorem sparse_array_iteration_skips_holes (l : List (Nat × JSValue))
    (hne : l ≠ []) (j : Nat) (hj : j ∉ l.map Prod.fst) :
    (JSArray.ofAssignments l).length = maxIdx l + 1 ∧
    (JSArray.ofAssignments l).getIdx j = JSValue.undef ∧
    (∀ i, i ∈ (JSArray.ofAssignments l).visitedIndices ↔ i ∈ l.map Prod.fst) ∧
    List.Pairwise (· < ·) (JSArray.ofAssignments l).visitedIndices := by
  refine ⟨?_, ?_, ?_, ?_⟩
  · cases l with
    | nil => exact absurd rfl hne
    | cons p rest =>
        show (JSArray.ofAssignments (p :: rest)).length = maxIdx (p :: rest) + 1
        rw [JSArray.ofAssignments, ofAssignments_length_aux, maxIdx]
        simp only [List.foldl_cons, JSArray.empty, Nat.zero_max]
        exact foldl_max_succ rest p.1
  · rw [JSArray.getIdx, JSArray.ofAssignments, ofAssignments_entries_aux,
      lookup_fold_not_mem _ _ _ hj]
    rfl
  · intro i
    rw [JSArray.visitedIndices, JSArray.ofAssignments, ofAssignments_entries_aux,
      mem_keys_fold]
    simp [JSArray.empty]
  · rw [JSArray.visitedIndices, JSArray.ofAssignments, ofAssignments_entries_aux]
    exact pairwise_keys_fold _ _ (by simp [JSArray.empty])

/-- C3 (witness): the concrete test array `a[0] = 0; a[1] = undefined;
    a[9] = 9` has length `10`, reads `undefined` at the hole `2`, and
    iterates exactly over `[0, 1, 9]`. -/
theorem sparse_array_iteration_skips_holes_witness :
    ((JSArray.ofAssignments sparseExample).length = maxIdx sparseExample + 1 ∧
     (JSArray.ofAssignments sparseExample).getIdx 2 = JSValue.undef ∧
     (∀ i, i ∈ (JSArray.ofAssignments sparseExample).visitedIndices
        ↔ i ∈ sparseExample.map Prod.fst) ∧
     List.Pairwise (· < ·) (JSArray.ofAssignments sparseExample).visitedIndices) ∧
    (JSArray.ofAssignments sparseExample).length = 10 ∧
    (JSArray.ofAssignments sparseExample).visitedIndices = [0, 1, 9] :=
  ⟨sparse_array_iteration_skips_holes sparseExample (by decide) 2 (by decide),
   by decide, by decide⟩
